import Mathlib

/-!
Verification of the core game logic of the nothanks_gs repository, a
spreadsheet adaptation of the card game "No Thanks!".  The repository
contains several near-duplicate revisions of one script; the definitions
below embed the cited revisions of each function.  Spreadsheet rendering,
metadata persistence and the UI lock are external collaborators and are
abstracted away: the persisted game data (deck, current card, table pool,
active player, player token counts, player hands) is collected in an
explicit `GameState`, and randomness (`Math.random()`) is passed in as an
explicit rational argument in the interval `[0, 1)`.
-/

namespace NoThanks

/-- Game rule constant `MIN_CARD = 3` (src/code.gs.js line 7). -/
def MIN_CARD : ℕ := 3

/-- Game rule constant `MAX_CARD = 35` (src/code.gs.js line 8). -/
def MAX_CARD : ℕ := 35

/-- Game rule constant `SETUP_CARDS_REMOVED = 9` (src/code.gs.js line 9). -/
def SETUP_CARDS_REMOVED : ℕ := 9

/-- Embedding of `range(max, min = 0)` (src/code.gs.js lines 519-521):
`[...Array(max + 1).keys()].splice(min)` builds `[0, ..., max]` and drops the
first `min` elements, yielding the inclusive range `[min, ..., max]`. -/
def range (max min : ℕ) : List ℕ :=
  (List.range (max + 1)).drop min

/-- Embedding of `randInt(max, min = 0)` (src/code.gs.js lines 523-525) in the
`min = 0` form used by the game logic:
`Math.floor(Math.random() * (max - min + 1))`.  The result of `Math.random()`
is passed in explicitly as the rational `r`; for `r` in `[0, 1)` the result
ranges uniformly over `0, ..., max`. -/
def randInt (r : ℚ) (max : ℕ) : ℕ :=
  (⌊r * (max + 1)⌋).toNat

/-- Embedding of `drawCard(deck)` from the first revision
(src/code.gs.js lines 142-153): picks `randIndex = randInt(deck.length - 1)`,
reads `deck[randIndex]` (`none` models a JS `undefined` out-of-range read) and
removes that index in place via `splice(randIndex, 1)` (which removes nothing
when the index is past the end, exactly like `List.eraseIdx`). -/
def drawCard (deck : List ℕ) (r : ℚ) : Option ℕ × List ℕ :=
  let randIndex := randInt r (deck.length - 1)
  (deck[randIndex]?, deck.eraseIdx randIndex)

/-- Embedding of `drawCard(deck)` from the second revision
(src/code.gs.js lines 614-625).  The only difference from the first revision
is the argument of `randInt`: this revision calls `randInt(deck.length)`, so
the random index ranges over `0, ..., deck.length` inclusive. -/
def drawCard2 (deck : List ℕ) (r : ℚ) : Option ℕ × List ℕ :=
  let randIndex := randInt r deck.length
  (deck[randIndex]?, deck.eraseIdx randIndex)

/-- Embedding of `newDeck()` from the first revision
(src/code.gs.js lines 155-165): start from `range(MAX_CARD, MIN_CARD)` and
perform `SETUP_CARDS_REMOVED` blind draws, keeping only the remaining deck.
The list `rs` supplies the `Math.random()` value consumed by each draw, so the
source's loop of `SETUP_CARDS_REMOVED` iterations corresponds to `rs` having
length `SETUP_CARDS_REMOVED`. -/
def newDeck (rs : List ℚ) : List ℕ :=
  rs.foldl (fun deck r => (drawCard deck r).2) (range MAX_CARD MIN_CARD)

/-- Embedding of `newDeck()` from the second revision
(src/code.gs.js lines 627-637), identical except that it draws with that
revision's `drawCard` (`drawCard2`). -/
def newDeck2 (rs : List ℚ) : List ℕ :=
  rs.foldl (fun deck r => (drawCard2 deck r).2) (range MAX_CARD MIN_CARD)

/-- Error conditions surfaced to the user by the script.  Each constructor
abstracts one `throw new Error(...)` message of the source. -/
inductive GameError
  /-- Message: the card ... is still out, someone needs to take it first
  (src/code.gs.js lines 50-54). -/
  | cardStillOut (card : ℕ)
  /-- Message: no more cards in the deck (src/code.gs.js line 59). -/
  | deckEmpty
  /-- Message: no card revealed yet to take (src/code.gs.js line 80). -/
  | noCardToTake
  /-- Message: no card revealed yet (src/code.gs.js line 103). -/
  | noCardRevealed
  /-- Message: the player does not have any tokens left
  (src/code.gs.js line 179). -/
  | insufficientTokens
  /-- Message: unsupported player count (src/code.gs.js line 2530). -/
  | unsupportedPlayerCount (playerCount : ℕ)
  deriving DecidableEq, Repr

/-- The persisted game data of one table, collected into a record.  In the
script these live in sheet metadata and cells: the deck JSON blob, the
rendered current card cell, the rendered token-pool cell, the active player
marker row, the player count (number of non-empty name cells, fixed during a
game), the player token JSON blob (a total map; players never dealt to hold
0), and each player's card row.  `currentTokens = none` models a blank pool
cell (JS `null`); every arithmetic read of the pool coerces blank to 0
exactly as JS `null` does. -/
structure GameState where
  deck : List ℕ
  currentCard : Option ℕ
  currentTokens : Option ℕ
  activePlayer : ℕ
  playerCount : ℕ
  playerTokens : ℕ → ℤ
  hands : ℕ → List ℕ

/-- Embedding of `addTokensToPlayer(player, tokens)`
(src/code.gs.js lines 174-184): reads the player token map, adds `tokens` to
the entry of `player`, throws (returning the untouched state and an error)
when the result would be negative, and otherwise stores the updated map. -/
def addTokensToPlayer (s : GameState) (player : ℕ) (tokens : ℤ) :
    GameState × Option GameError :=
  let newPlayerTokensCount := s.playerTokens player + tokens
  if newPlayerTokensCount < 0 then
    (s, some .insufficientTokens)
  else
    ({ s with playerTokens := fun p =>
        if p = player then newPlayerTokensCount else s.playerTokens p },
      none)

/-- Embedding of the hand update inside `addCardToPlayer(player, card)`
(src/code.gs.js lines 292-310): push the new card onto the row of owned cards
and re-sort ascending (`sort((a, b) => a - b)`). -/
def addCardToHand (hand : List ℕ) (card : ℕ) : List ℕ :=
  (hand ++ [card]).insertionSort (· ≤ ·)

/-- Embedding of `advanceActivePlayer()` (src/code.gs.js lines 167-172):
move the active player marker to `(activePlayer + 1) % playerCount`. -/
def advanceActivePlayer (s : GameState) : GameState :=
  { s with activePlayer := (s.activePlayer + 1) % s.playerCount }

/-- Embedding of `revealTopCard()` (src/code.gs.js lines 46-73, first
revision; src/unnamed/part_000 lines 102-129 is identical in game logic).
Throws while a card is still out, throws when the deck is empty, and
otherwise draws one card (consuming the random value `r`), makes it the
current card, stores the shrunk deck and resets the table pool to 0.  A
thrown error leaves the state exactly as received, since both checks precede
every write. -/
def revealTopCard (s : GameState) (r : ℚ) : GameState × Option GameError :=
  match s.currentCard with
  | some currentCard => (s, some (.cardStillOut currentCard))
  | none =>
    if s.deck.length = 0 then
      (s, some .deckEmpty)
    else
      let drawn := drawCard s.deck r
      ({ s with
          currentCard := drawn.1
          deck := drawn.2
          currentTokens := some 0 },
        none)

/-- Embedding of `takeCard()` (src/code.gs.js lines 75-97): rejected when no
card is revealed; otherwise reads the pool, clears the current card and the
pool, adds the card to the active player's hand and credits the pool tokens
to that player via `addTokensToPlayer` (a blank pool adds 0, as JS `null`
does in addition). -/
def takeCard (s : GameState) : GameState × Option GameError :=
  match s.currentCard with
  | none => (s, some .noCardToTake)
  | some card =>
    let tokens := s.currentTokens
    let s1 := { s with currentCard := none, currentTokens := none }
    let player := s1.activePlayer
    let s2 := { s1 with hands := fun p =>
        if p = player then addCardToHand (s1.hands p) card else s1.hands p }
    addTokensToPlayer s2 player (tokens.getD 0 : ℕ)

/-- Embedding of `noThanks()` (src/code.gs.js lines 99-114): rejected when no
card is revealed; otherwise takes one token from the active player
(propagating the insufficient-tokens failure of `addTokensToPlayer`, which
occurs before any write), adds it to the table pool and advances the active
player. -/
def noThanks (s : GameState) : GameState × Option GameError :=
  match s.currentCard with
  | none => (s, some .noCardRevealed)
  | some _ =>
    let taken := addTokensToPlayer s s.activePlayer (-1)
    match taken.2 with
    | some e => (taken.1, some e)
    | none =>
      let s1 := { taken.1 with
        currentTokens := some (taken.1.currentTokens.getD 0 + 1) }
      (advanceActivePlayer s1, none)

/-- Embedding of the token lookup inside `dealTokens(playerCount)`
(src/code.gs.js lines 186-197): the chain
`if (playerCount <= 5) tokens = 11; else if (playerCount == 6) tokens = 9;
else if (playerCount == 7) tokens = 7;` leaves `tokens` undefined (modelled
by `none`) for any count above 7, and notably does not reject counts below
3. -/
def dealTokensAmount (playerCount : ℕ) : Option ℤ :=
  if playerCount ≤ 5 then some 11
  else if playerCount = 6 then some 9
  else if playerCount = 7 then some 7
  else none

/-- Embedding of `dealTokens(playerCount)` in the map-building form of the
third revision (src/code.gs.js lines 996-1009):
`range(playerCount - 1).reduce((obj, player) => { obj[player] = tokens; ... },
{})` assigns the looked-up amount to every player `0, ..., playerCount - 1`.
`none` models the map of undefined values stored when the lookup falls
through. -/
def dealTokens (playerCount : ℕ) : Option (ℕ → ℤ) :=
  (dealTokensAmount playerCount).map
    (fun tokens p => if p < playerCount then tokens else 0)

/-- Embedding of `tokensPerPlayer(playerCount)` from the final revision
(src/code.gs.js lines 2519-2532): a switch returning 11 for 3, 4 or 5
players, 9 for 6, 7 for 7, and throwing an unsupported-player-count error in
the default branch. -/
def tokensPerPlayer (playerCount : ℕ) : Except GameError ℤ :=
  if playerCount = 3 ∨ playerCount = 4 ∨ playerCount = 5 then .ok 11
  else if playerCount = 6 then .ok 9
  else if playerCount = 7 then .ok 7
  else .error (.unsupportedPlayerCount playerCount)

/-- The state produced by `newGame()` (src/code.gs.js lines 116-138): all
hands empty, no current card, blank pool, a starting player chosen by
`randInt(playerCount - 1)`, tokens dealt to every player, and a fresh deck.
The dealt amount and the deck are taken as parameters so that one definition
covers every run of the random setup. -/
def freshGame (playerCount start : ℕ) (tokens : ℤ) (deck : List ℕ) :
    GameState where
  deck := deck
  currentCard := none
  currentTokens := none
  activePlayer := start
  playerCount := playerCount
  playerTokens := fun p => if p < playerCount then tokens else 0
  hands := fun _ => []

/-- One user action on the persisted state: a reveal (consuming one
`Math.random()` value), a take, or a decline.  Failed actions are included;
every failure path returns the state unchanged, so including them only adds
stuttering steps. -/
inductive Step : GameState → GameState → Prop
  | reveal (s : GameState) (r : ℚ) : Step s (revealTopCard s r).1
  | take (s : GameState) : Step s (takeCard s).1
  | decline (s : GameState) : Step s (noThanks s).1

/-- Reachability of a game state from another by any sequence of user
actions. -/
def Reachable (s₀ s : GameState) : Prop :=
  Relation.ReflTransGen Step s₀ s

/-- The total number of tokens visible on the table: every player's token
count plus the table pool (a blank pool counts as 0). -/
def tokenTotal (s : GameState) : ℤ :=
  (Finset.range s.playerCount).sum s.playerTokens +
    (s.currentTokens.getD 0 : ℕ)

/-- The multiset of card values held by an optional current card. -/
def optCardM : Option ℕ → Multiset ℕ
  | none => 0
  | some c => {c}

/-- The multiset of all card values on the table: the deck, the current card
if revealed, and every player's hand. -/
def boardMultiset (s : GameState) : Multiset ℕ :=
  (s.deck : Multiset ℕ) + optCardM s.currentCard +
    (Finset.range s.playerCount).sum (fun p => (s.hands p : Multiset ℕ))

/-- Embedding of the loop body of the generator `groupConsecutiveRuns`
(src/code.gs.js lines 2704-2729 and src/unnamed/part_000 lines 480-505):
`currentRun` accumulates the run under construction; when the next number
does not extend the run (`currentRun[currentRun.length - 1] !== num - 1`) the
run is yielded and a new one starts; the trailing run is yielded after the
loop. -/
def runsAux : List ℤ → List ℤ → List (List ℤ)
  | currentRun, [] => if currentRun = [] then [] else [currentRun]
  | currentRun, num :: rest =>
    if currentRun ≠ [] ∧ currentRun.getLast? ≠ some (num - 1) then
      currentRun :: runsAux [num] rest
    else
      runsAux (currentRun ++ [num]) rest

/-- Embedding of `groupConsecutiveRuns(numbers)` (src/code.gs.js lines
2704-2729): the generator first sorts a copy of its input ascending
(`numbers.slice().sort(intComparator)`) and then yields the maximal
consecutive runs in order. -/
def groupConsecutiveRuns (numbers : List ℤ) : List (List ℤ) :=
  runsAux [] (numbers.insertionSort (· ≤ ·))

/-- Embedding of the in-place swap performed by one iteration of `shuffle`:
`temporaryValue = array[i]; array[i] = array[j]; array[j] = temporaryValue`
(src/code.gs.js lines 2112-2115 with `i - 1` for the first index, and lines
3147-3150).  Out-of-range JS index reads yield `undefined`; they never occur
in the source because both indices are below the length, and the default
value 0 of `getD` is irrelevant there. -/
def swapAt (array : List ℕ) (i j : ℕ) : List ℕ :=
  let temporaryValue := array.getD i 0
  (array.set i (array.getD j 0)).set j temporaryValue

/-- Loop of `shuffle(array)` from the fourth revision (src/code.gs.js lines
2109-2118): `for (let i = array.length; i > 0; i--)` swaps `array[i - 1]`
with `array[randInt(i - 1)]`.  The counter argument is the loop variable
`i`; `rand i` supplies the `Math.random()` value of that iteration. -/
def shuffleAuxA (rand : ℕ → ℚ) : List ℕ → ℕ → List ℕ
  | array, 0 => array
  | array, i + 1 =>
    shuffleAuxA rand (swapAt array i (randInt (rand (i + 1)) i)) i

/-- Embedding of `shuffle(array)` from the fourth revision
(src/code.gs.js lines 2109-2118). -/
def shuffleA (array : List ℕ) (rand : ℕ → ℚ) : List ℕ :=
  shuffleAuxA rand array array.length

/-- Loop of `shuffle(array)` from the final revision (src/code.gs.js lines
3145-3154 and src/unnamed/part_000 lines 917-926):
`for (let i = array.length - 1; i > 0; i--)` swaps `array[i]` with
`array[randInt(i)]`. -/
def shuffleAuxB (rand : ℕ → ℚ) : List ℕ → ℕ → List ℕ
  | array, 0 => array
  | array, i + 1 =>
    shuffleAuxB rand (swapAt array (i + 1) (randInt (rand (i + 1)) (i + 1))) i

/-- Embedding of `shuffle(array)` from the final revision
(src/code.gs.js lines 3145-3154, src/unnamed/part_000 lines 917-926). -/
def shuffleB (array : List ℕ) (rand : ℕ → ℚ) : List ℕ :=
  shuffleAuxB rand array (array.length - 1)

/-- Inductive invariant carrying claim C1: the player count is fixed, the
active player is a valid index, token counts never go negative, the pool is
effectively 0 whenever no card is out, and the total token count is the
amount dealt at game start. -/
def TokenInv (count : ℕ) (tok : ℤ) (s : GameState) : Prop :=
  s.playerCount = count ∧ s.activePlayer < count ∧
    (∀ p, 0 ≤ s.playerTokens p) ∧
    (s.currentCard = none → s.currentTokens.getD 0 = 0) ∧
    tokenTotal s = count * tok

/-- Inductive invariant carrying claim C2: the player count is fixed, the
active player is a valid index, and the multiset of cards on the table (deck,
current card, hands) is exactly the freshly dealt deck. -/
def CardInv (count : ℕ) (initDeck : Multiset ℕ) (s : GameState) : Prop :=
  s.playerCount = count ∧ s.activePlayer < count ∧ boardMultiset s = initDeck

/-- Constant random function used to instantiate shuffle runs on concrete
inputs. -/
def halfRand : ℕ → ℚ := fun _ => 1/2

/-- A concrete mid-game state: card 5 is out with 2 pool tokens, player 1 of
3 is active, and everyone holds 11 tokens. -/
def stuckState : GameState :=
  ⟨[7, 8], some 5, some 2, 1, 3, fun _ => 11, fun _ => []⟩

/-- A concrete mid-game state in which the active player holds no tokens. -/
def brokeState : GameState :=
  ⟨[7, 8], some 5, some 2, 1, 3, fun _ => 0, fun _ => []⟩

/-- A concrete 4-player state with card 5 out and active player `a`. -/
def turnState (a : ℕ) : GameState :=
  ⟨[9], some 5, some 0, a, 4, fun _ => 11, fun _ => []⟩

section Lemmas

/-- The card component of a draw is the indexed read of the deck. -/
theorem drawCard_fst (deck : List ℕ) (r : ℚ) :
    (drawCard deck r).1 = deck[randInt r (deck.length - 1)]? := rfl

/-- The remaining-deck component of a draw erases the drawn index. -/
theorem drawCard_snd (deck : List ℕ) (r : ℚ) :
    (drawCard deck r).2 = deck.eraseIdx (randInt r (deck.length - 1)) := rfl

/-- With a random value in `[0, 1)`, `randInt` never exceeds its bound. -/
theorem randInt_le (r : ℚ) (max : ℕ) (h0 : 0 ≤ r) (h1 : r < 1) :
    randInt r max ≤ max := by
  unfold randInt
  have hpos : (0 : ℚ) < max + 1 := by positivity
  have hlt : r * (max + 1) < max + 1 := by
    calc r * (max + 1) < 1 * (max + 1) := mul_lt_mul_of_pos_right h1 hpos
    _ = max + 1 := one_mul _
  have hfl : ⌊r * ((max : ℚ) + 1)⌋ < (max : ℤ) + 1 := by
    rw [Int.floor_lt]
    push_cast
    exact hlt
  omega

/-- Erasing past the end of a list is a no-op, matching JS
`splice(i, 1)` for `i` at or past the length. -/
theorem eraseIdx_of_length_le (l : List ℕ) :
    ∀ i : ℕ, l.length ≤ i → l.eraseIdx i = l := by
  induction l with
  | nil => intro i _; rfl
  | cons a t ih =>
    intro i hi
    cases i with
    | zero => simp at hi
    | succ n =>
      simp only [List.eraseIdx]
      rw [ih n (by simpa using hi)]

/-- The deck left after any run of blind draws is a sublist of the starting
deck. -/
theorem foldl_draw_sublist (rs : List ℚ) :
    ∀ d : List ℕ, (rs.foldl (fun deck r => (drawCard deck r).2) d).Sublist d := by
  induction rs with
  | nil => intro d; exact List.Sublist.refl d
  | cons r rest ih =>
    intro d
    exact (ih _).trans (List.eraseIdx_sublist d _)

/-- Each blind draw with a random value in `[0, 1)` removes exactly one
card. -/
theorem foldl_draw_length (rs : List ℚ) (hr : ∀ r ∈ rs, 0 ≤ r ∧ r < 1) :
    ∀ d : List ℕ, rs.length ≤ d.length →
      (rs.foldl (fun deck r => (drawCard deck r).2) d).length =
        d.length - rs.length := by
  induction rs with
  | nil => intro d _; simp
  | cons r rest ih =>
    intro d hlen
    have h01 := hr r (List.mem_cons_self r rest)
    have hd : 0 < d.length := by
      simp only [List.length_cons] at hlen
      omega
    have hidx : randInt r (d.length - 1) < d.length := by
      have := randInt_le r (d.length - 1) h01.1 h01.2
      omega
    have herase : ((drawCard d r).2).length = d.length - 1 := by
      show (d.eraseIdx _).length = d.length - 1
      rw [List.length_eraseIdx]
      simp [hidx]
    simp only [List.foldl_cons]
    rw [ih (fun x hx => hr x (List.mem_cons_of_mem r hx)) _ (by
      rw [herase]
      simp only [List.length_cons] at hlen
      omega)]
    rw [herase]
    simp only [List.length_cons] at hlen ⊢
    omega

/-- Functional correctness of `newDeck` (first revision): after 9 blind
draws driven by any genuine `Math.random()` values, 24 distinct cards
remain, all within the card range. -/
theorem newDeck_spec (rs : List ℚ) (hr : ∀ r ∈ rs, 0 ≤ r ∧ r < 1)
    (hlen : rs.length = SETUP_CARDS_REMOVED) :
    (newDeck rs).length = 24 ∧ (newDeck rs).Nodup ∧
      ∀ c ∈ newDeck rs, MIN_CARD ≤ c ∧ c ≤ MAX_CARD := by
  have hbase : (range MAX_CARD MIN_CARD).length = 33 := by decide
  have hsub : (newDeck rs).Sublist (range MAX_CARD MIN_CARD) :=
    foldl_draw_sublist rs _
  refine ⟨?_, ?_, ?_⟩
  · unfold newDeck
    rw [foldl_draw_length rs hr _ (by rw [hbase, hlen]; decide)]
    rw [hbase, hlen]
    decide
  · exact (by decide : (range MAX_CARD MIN_CARD).Nodup).sublist hsub
  · intro c hc
    have hmem : c ∈ range MAX_CARD MIN_CARD := hsub.subset hc
    have hall : ∀ c ∈ range MAX_CARD MIN_CARD, MIN_CARD ≤ c ∧ c ≤ MAX_CARD := by
      decide
    exact hall c hmem

/-- On a 33-card deck, the second revision's draw at random value `99/100`
picks index 33 (one past the end) and therefore removes nothing. -/
theorem drawCard2_stuck_step (d : List ℕ) (hd : d.length = 33) :
    (drawCard2 d (99/100)).2 = d := by
  show d.eraseIdx (randInt (99/100) d.length) = d
  have h33 : randInt (99/100) 33 = 33 := by
    unfold randInt
    norm_num
    decide
  rw [hd, h33]
  exact eraseIdx_of_length_le d 33 (le_of_eq hd)

/-- Iterating the stuck draw of the second revision leaves the 33-card deck
untouched. -/
theorem newDeck2_stuck (n : ℕ) : ∀ d : List ℕ, d.length = 33 →
    (List.replicate n ((99 : ℚ)/100)).foldl
      (fun deck r => (drawCard2 deck r).2) d = d := by
  induction n with
  | zero => intro d _; rfl
  | succ m ih =>
    intro d hd
    rw [List.replicate_succ, List.foldl_cons, drawCard2_stuck_step d hd]
    exact ih d hd

/-- Concatenating the runs produced by the grouping loop restores the
accumulated run followed by the remaining input. -/
theorem runsAux_join (l : List ℤ) :
    ∀ currentRun : List ℤ, (runsAux currentRun l).flatten = currentRun ++ l := by
  induction l with
  | nil =>
    intro cur
    by_cases h : cur = [] <;> simp [runsAux, h]
  | cons num rest ih =>
    intro cur
    by_cases h : cur ≠ [] ∧ cur.getLast? ≠ some (num - 1)
    · simp only [runsAux, if_pos h, List.flatten_cons, ih]
      simp
    · simp only [runsAux, if_neg h, ih]
      simp

/-- Every run produced by the grouping loop is non-empty and strictly
ascending in steps of one, provided the accumulated run already is. -/
theorem runsAux_runs (l : List ℤ) :
    ∀ currentRun : List ℤ, currentRun.Chain' (fun a b => b = a + 1) →
      ∀ r ∈ runsAux currentRun l, r ≠ [] ∧ r.Chain' (fun a b => b = a + 1) := by
  induction l with
  | nil =>
    intro cur hcur r hr
    by_cases h : cur = []
    · simp [runsAux, h] at hr
    · simp only [runsAux, if_neg h, List.mem_singleton] at hr
      subst hr
      exact ⟨h, hcur⟩
  | cons num rest ih =>
    intro cur hcur r hr
    by_cases h : cur ≠ [] ∧ cur.getLast? ≠ some (num - 1)
    · simp only [runsAux, if_pos h, List.mem_cons] at hr
      rcases hr with rfl | hr
      · exact ⟨h.1, hcur⟩
      · exact ih [num] (List.chain'_singleton num) r hr
    · simp only [runsAux, if_neg h] at hr
      push_neg at h
      refine ih (cur ++ [num]) ?_ r hr
      by_cases hcurnil : cur = []
      · simp [hcurnil]
      · rw [List.chain'_append]
        refine ⟨hcur, List.chain'_singleton num, ?_⟩
        intro x hx y hy
        rw [h hcurnil] at hx
        simp only [Option.mem_def, Option.some.injEq] at hx
        simp only [List.head?_cons, Option.mem_def, Option.some.injEq] at hy
        omega

/-- The first run produced by the grouping loop starts with the head of the
non-empty accumulated run. -/
theorem runsAux_head (l : List ℤ) :
    ∀ currentRun : List ℤ, currentRun ≠ [] →
      ∃ r rs, runsAux currentRun l = r :: rs ∧ r.head? = currentRun.head? := by
  induction l with
  | nil =>
    intro cur hcur
    exact ⟨cur, [], by simp [runsAux, hcur], rfl⟩
  | cons num rest ih =>
    intro cur hcur
    by_cases h : cur ≠ [] ∧ cur.getLast? ≠ some (num - 1)
    · exact ⟨cur, runsAux [num] rest, by simp [runsAux, h], rfl⟩
    · obtain ⟨r, rs, heq, hhead⟩ := ih (cur ++ [num]) (by simp)
      refine ⟨r, rs, by simp only [runsAux, if_neg h]; exact heq, ?_⟩
      rw [hhead]
      cases cur with
      | nil => exact absurd rfl hcur
      | cons a t => rfl

/-- Adjacent runs produced by the grouping loop never merge: the head of
each later run is not one more than the last element of the run before
it. -/
theorem runsAux_chain (l : List ℤ) :
    ∀ currentRun : List ℤ,
      (runsAux currentRun l).Chain'
        (fun r₁ r₂ => ∀ a ∈ r₁.getLast?, ∀ b ∈ r₂.head?, b ≠ a + 1) := by
  induction l with
  | nil =>
    intro cur
    by_cases h : cur = [] <;> simp [runsAux, h]
  | cons num rest ih =>
    intro cur
    by_cases h : cur ≠ [] ∧ cur.getLast? ≠ some (num - 1)
    · simp only [runsAux, if_pos h]
      obtain ⟨r, rs, heq, hhead⟩ := runsAux_head rest [num] (by simp)
      rw [heq, List.chain'_cons]
      constructor
      · intro a ha b hb
        rw [hhead] at hb
        simp only [List.head?_cons, Option.mem_def, Option.some.injEq] at hb
        have hlast : cur.getLast? = some a := ha
        have : a ≠ num - 1 := by
          intro habs
          exact h.2 (by rw [hlast, habs])
        omega
      · rw [← heq]
        exact ih [num]
    · simp only [runsAux, if_neg h]
      exact ih (cur ++ [num])

/-- Writing back the value already stored at an index leaves a list
unchanged. -/
theorem set_getD_self (l : List ℕ) : ∀ i : ℕ, l.set i (l.getD i 0) = l := by
  induction l with
  | nil => intro i; rfl
  | cons a t ih =>
    intro i
    cases i with
    | zero => rfl
    | succ n =>
      simp only [List.set_cons_succ, List.getD_cons_succ]
      rw [ih n]

/-- Setting one index does not change reads at a different index. -/
theorem getD_set_ne (l : List ℕ) (i j v : ℕ) (hij : i ≠ j) :
    (l.set i v).getD j 0 = l.getD j 0 := by
  rw [List.getD_eq_getElem?_getD, List.getD_eq_getElem?_getD,
    List.getElem?_set_ne hij]

/-- Setting an in-range index replaces exactly one occurrence in the
multiset of elements. -/
theorem multiset_set (l : List ℕ) : ∀ i : ℕ, i < l.length → ∀ v : ℕ,
    ((l.set i v : List ℕ) : Multiset ℕ) + {l.getD i 0} =
      (l : Multiset ℕ) + {v} := by
  induction l with
  | nil => intro i hi; simp at hi
  | cons a t ih =>
    intro i hi v
    cases i with
    | zero =>
      simp only [List.set_cons_zero, List.getD_cons_zero]
      rw [← Multiset.cons_coe, ← Multiset.cons_coe,
        ← Multiset.singleton_add, ← Multiset.singleton_add]
      abel
    | succ n =>
      have hn : n < t.length := by simpa using hi
      simp only [List.set_cons_succ, List.getD_cons_succ]
      rw [← Multiset.cons_coe, ← Multiset.cons_coe,
        Multiset.cons_add, Multiset.cons_add, ih n hn v]

/-- The element swap of the shuffle loop preserves list length. -/
theorem length_swapAt (l : List ℕ) (i j : ℕ) :
    (swapAt l i j).length = l.length := by
  simp [swapAt]

/-- The element swap of the shuffle loop preserves the multiset of
elements whenever both indices are in range. -/
theorem multiset_swapAt (l : List ℕ) (i j : ℕ) (hi : i < l.length)
    (hj : j < l.length) :
    ((swapAt l i j : List ℕ) : Multiset ℕ) = (l : Multiset ℕ) := by
  by_cases hij : i = j
  · subst hij
    show ((l.set i (l.getD i 0)).set i (l.getD i 0) : List ℕ) = (l : Multiset ℕ)
    rw [set_getD_self l i, set_getD_self l i]
  · show ((l.set i (l.getD j 0)).set j (l.getD i 0) : List ℕ) = (l : Multiset ℕ)
    have hj2 : j < (l.set i (l.getD j 0)).length := by simpa using hj
    have eq1 := multiset_set l i hi (l.getD j 0)
    have eq2 := multiset_set (l.set i (l.getD j 0)) j hj2 (l.getD i 0)
    rw [getD_set_ne l i j _ hij, eq1] at eq2
    exact add_right_cancel eq2

/-- The loop of the fourth revision's `shuffle` preserves the multiset of
elements when every random value is in `[0, 1)`. -/
theorem shuffleAuxA_multiset (rand : ℕ → ℚ)
    (hr : ∀ i, 0 ≤ rand i ∧ rand i < 1) :
    ∀ (k : ℕ) (arr : List ℕ), k ≤ arr.length →
      ((shuffleAuxA rand arr k : List ℕ) : Multiset ℕ) = (arr : Multiset ℕ) := by
  intro k
  induction k with
  | zero => intro arr _; rfl
  | succ n ih =>
    intro arr hk
    have hi : n < arr.length := hk
    have hj : randInt (rand (n + 1)) n < arr.length :=
      Nat.lt_of_le_of_lt (randInt_le _ _ (hr (n + 1)).1 (hr (n + 1)).2) hi
    simp only [shuffleAuxA]
    rw [ih _ (by rw [length_swapAt]; omega)]
    exact multiset_swapAt arr n _ hi hj

/-- The loop of the final revision's `shuffle` preserves the multiset of
elements when every random value is in `[0, 1)`. -/
theorem shuffleAuxB_multiset (rand : ℕ → ℚ)
    (hr : ∀ i, 0 ≤ rand i ∧ rand i < 1) :
    ∀ (k : ℕ) (arr : List ℕ), k ≤ arr.length - 1 →
      ((shuffleAuxB rand arr k : List ℕ) : Multiset ℕ) = (arr : Multiset ℕ) := by
  intro k
  induction k with
  | zero => intro arr _; rfl
  | succ n ih =>
    intro arr hk
    have hi : n + 1 < arr.length := by omega
    have hj : randInt (rand (n + 1)) (n + 1) < arr.length :=
      Nat.lt_of_le_of_lt (randInt_le _ _ (hr (n + 1)).1 (hr (n + 1)).2) hi
    simp only [shuffleAuxB]
    rw [ih _ (by rw [length_swapAt]; omega)]
    exact multiset_swapAt arr (n + 1) _ hi hj

/-- Updating one in-range entry shifts a range sum by the difference. -/
theorem sum_ite_update (n a : ℕ) (f : ℕ → ℤ) (v : ℤ) (ha : a < n) :
    (Finset.range n).sum (fun p => if p = a then v else f p) =
      (Finset.range n).sum f - f a + v := by
  have hmem : a ∈ Finset.range n := Finset.mem_range.mpr ha
  have h1 := Finset.sum_eq_sum_diff_singleton_add hmem
    (fun p => if p = a then v else f p)
  have h2 := Finset.sum_eq_sum_diff_singleton_add hmem f
  have hdiff : ((Finset.range n) \ {a}).sum
      (fun p => if p = a then v else f p) = ((Finset.range n) \ {a}).sum f := by
    refine Finset.sum_congr rfl ?_
    intro x hx
    have hxa : x ≠ a := by simpa using (Finset.mem_sdiff.mp hx).2
    exact if_neg hxa
  rw [h1, h2, hdiff, if_pos rfl]
  ring

/-- A failed or successful reveal preserves the token invariant. -/
theorem tokenInv_reveal (count : ℕ) (tok : ℤ) (s : GameState) (r : ℚ)
    (h : TokenInv count tok s) : TokenInv count tok (revealTopCard s r).1 := by
  obtain ⟨hcount, hactive, hpos, hpool, htotal⟩ := h
  unfold revealTopCard
  cases hc : s.currentCard with
  | some c => exact ⟨hcount, hactive, hpos, hpool, htotal⟩
  | none =>
    by_cases hd : s.deck.length = 0
    · rw [if_pos hd]
      exact ⟨hcount, hactive, hpos, hpool, htotal⟩
    · rw [if_neg hd]
      refine ⟨hcount, hactive, hpos, fun _ => rfl, ?_⟩
      have hp : s.currentTokens.getD 0 = 0 := hpool hc
      unfold tokenTotal at htotal ⊢
      dsimp only
      rw [hp] at htotal
      simpa using htotal

/-- A failed or successful take preserves the token invariant. -/
theorem tokenInv_take (count : ℕ) (tok : ℤ) (s : GameState)
    (h : TokenInv count tok s) : TokenInv count tok (takeCard s).1 := by
  obtain ⟨hcount, hactive, hpos, hpool, htotal⟩ := h
  unfold takeCard
  cases hc : s.currentCard with
  | none => exact ⟨hcount, hactive, hpos, hpool, htotal⟩
  | some card =>
    unfold addTokensToPlayer
    dsimp only
    rw [if_neg (by
      have hp := hpos s.activePlayer
      have hn : (0 : ℤ) ≤ (s.currentTokens.getD 0 : ℕ) := Int.natCast_nonneg _
      omega)]
    refine ⟨hcount, hactive, ?_, fun _ => rfl, ?_⟩
    · intro p
      dsimp only
      split
      · have hp := hpos s.activePlayer
        have hn : (0 : ℤ) ≤ (s.currentTokens.getD 0 : ℕ) := Int.natCast_nonneg _
        omega
      · exact hpos p
    · unfold tokenTotal at htotal ⊢
      dsimp only
      rw [hcount] at htotal ⊢
      rw [sum_ite_update count s.activePlayer s.playerTokens _ hactive]
      simp only [Option.getD_none, Option.getD_some]
      push_cast at htotal ⊢
      linarith

/-- A failed or successful decline preserves the token invariant. -/
theorem tokenInv_noThanks (count : ℕ) (tok : ℤ) (s : GameState)
    (h : TokenInv count tok s) : TokenInv count tok (noThanks s).1 := by
  obtain ⟨hcount, hactive, hpos, hpool, htotal⟩ := h
  unfold noThanks
  cases hc : s.currentCard with
  | none => exact ⟨hcount, hactive, hpos, hpool, htotal⟩
  | some card =>
    unfold addTokensToPlayer advanceActivePlayer
    dsimp only
    by_cases hneg : s.playerTokens s.activePlayer + (-1) < 0
    · rw [if_pos hneg]
      exact ⟨hcount, hactive, hpos, hpool, htotal⟩
    · rw [if_neg hneg]
      refine ⟨hcount, ?_, ?_, ?_, ?_⟩
      · show (s.activePlayer + 1) % s.playerCount < count
        rw [hcount]
        exact Nat.mod_lt _ (by omega)
      · intro p
        dsimp only
        split
        · omega
        · exact hpos p
      · intro h2
        dsimp only at h2
        rw [hc] at h2
        exact Option.noConfusion h2
      · unfold tokenTotal at htotal ⊢
        dsimp only
        rw [hcount] at htotal ⊢
        rw [sum_ite_update count s.activePlayer s.playerTokens _ hactive]
        simp only [Option.getD_none, Option.getD_some]
        push_cast at htotal ⊢
        linarith

/-- The freshly dealt game satisfies the token invariant. -/
theorem tokenInv_freshGame (count start : ℕ) (tok : ℤ) (deck : List ℕ)
    (hstart : start < count) (htok : 0 ≤ tok) :
    TokenInv count tok (freshGame count start tok deck) := by
  refine ⟨rfl, hstart, ?_, fun _ => rfl, ?_⟩
  · intro p
    dsimp [freshGame]
    split
    · exact htok
    · exact le_refl 0
  · unfold tokenTotal freshGame
    dsimp only
    rw [Finset.sum_congr rfl
      (fun p hp => if_pos (Finset.mem_range.mp hp))]
    rw [Finset.sum_const, Finset.card_range]
    simp [nsmul_eq_mul]

/-- The token invariant holds in every state reachable from one satisfying
it. -/
theorem tokenInv_reachable (count : ℕ) (tok : ℤ) (s0 s : GameState)
    (h0 : TokenInv count tok s0) (hr : Reachable s0 s) :
    TokenInv count tok s := by
  unfold Reachable at hr
  induction hr with
  | refl => exact h0
  | tail _ hstep ih =>
    cases hstep with
    | reveal r => exact tokenInv_reveal count tok _ r ih
    | take => exact tokenInv_take count tok _ ih
    | decline => exact tokenInv_noThanks count tok _ ih

/-- Removing an index and re-adding the value read there (if any) restores
the multiset of elements, for in-range and out-of-range indices alike. -/
theorem multiset_eraseIdx (l : List ℕ) : ∀ i : ℕ,
    ((l.eraseIdx i : List ℕ) : Multiset ℕ) + optCardM l[i]? =
      (l : Multiset ℕ) := by
  induction l with
  | nil => intro i; simp [optCardM]
  | cons a t ih =>
    intro i
    cases i with
    | zero =>
      simp only [List.eraseIdx_cons_zero, List.getElem?_cons_zero]
      unfold optCardM
      rw [← Multiset.cons_coe, ← Multiset.singleton_add]
      abel
    | succ n =>
      simp only [List.eraseIdx_cons_succ, List.getElem?_cons_succ]
      rw [← Multiset.cons_coe, ← Multiset.cons_coe, Multiset.cons_add, ih n]

/-- Updating one in-range entry of a range sum of multisets exchanges the
old entry for the new one. -/
theorem sum_ite_update_multiset (n a : ℕ) (f : ℕ → Multiset ℕ)
    (v : Multiset ℕ) (ha : a < n) :
    (Finset.range n).sum (fun p => if p = a then v else f p) + f a =
      (Finset.range n).sum f + v := by
  have hmem : a ∈ Finset.range n := Finset.mem_range.mpr ha
  have h1 := Finset.sum_eq_sum_diff_singleton_add hmem
    (fun p => if p = a then v else f p)
  have h2 := Finset.sum_eq_sum_diff_singleton_add hmem f
  have hdiff : ((Finset.range n) \ {a}).sum
      (fun p => if p = a then v else f p) = ((Finset.range n) \ {a}).sum f := by
    refine Finset.sum_congr rfl ?_
    intro x hx
    have hxa : x ≠ a := by simpa using (Finset.mem_sdiff.mp hx).2
    exact if_neg hxa
  rw [h1, h2, hdiff, if_pos rfl]
  abel

/-- The size of a range sum of multisets is the sum of the sizes. -/
theorem card_finset_sum (n : ℕ) (f : ℕ → Multiset ℕ) :
    Multiset.card ((Finset.range n).sum f) =
      (Finset.range n).sum (fun p => Multiset.card (f p)) := by
  induction n with
  | zero => simp
  | succ m ih =>
    rw [Finset.sum_range_succ, Finset.sum_range_succ, Multiset.card_add, ih]

/-- Adding a card to a hand adds exactly that card to the multiset of held
cards (the re-sort is a permutation). -/
theorem multiset_addCardToHand (hand : List ℕ) (card : ℕ) :
    ((addCardToHand hand card : List ℕ) : Multiset ℕ) =
      (hand : Multiset ℕ) + {card} := by
  unfold addCardToHand
  rw [Multiset.coe_eq_coe.mpr (List.perm_insertionSort _ _)]
  rfl

/-- A failed or successful reveal preserves the card invariant. -/
theorem cardInv_reveal (count : ℕ) (dm : Multiset ℕ) (s : GameState) (r : ℚ)
    (h : CardInv count dm s) : CardInv count dm (revealTopCard s r).1 := by
  obtain ⟨hcount, hactive, hboard⟩ := h
  unfold revealTopCard
  cases hc : s.currentCard with
  | some c => exact ⟨hcount, hactive, hboard⟩
  | none =>
    by_cases hd : s.deck.length = 0
    · rw [if_pos hd]
      exact ⟨hcount, hactive, hboard⟩
    · rw [if_neg hd]
      refine ⟨hcount, hactive, ?_⟩
      unfold boardMultiset at hboard ⊢
      rw [hc] at hboard
      dsimp only
      rw [drawCard_fst, drawCard_snd, multiset_eraseIdx s.deck _]
      simpa [optCardM] using hboard

/-- A failed or successful take preserves the card invariant. -/
theorem cardInv_take (count : ℕ) (dm : Multiset ℕ) (s : GameState)
    (h : CardInv count dm s) : CardInv count dm (takeCard s).1 := by
  obtain ⟨hcount, hactive, hboard⟩ := h
  unfold takeCard
  cases hc : s.currentCard with
  | none => exact ⟨hcount, hactive, hboard⟩
  | some card =>
    unfold boardMultiset at hboard
    rw [hc] at hboard
    unfold addTokensToPlayer
    dsimp only
    split <;> refine ⟨hcount, hactive, ?_⟩ <;>
    · unfold boardMultiset
      dsimp only
      rw [hcount] at hboard ⊢
      have hcongr : ∀ p ∈ Finset.range count,
          ((if p = s.activePlayer then addCardToHand (s.hands p) card
              else s.hands p : List ℕ) : Multiset ℕ) =
            (fun q => if q = s.activePlayer
              then ((addCardToHand (s.hands s.activePlayer) card : List ℕ) :
                Multiset ℕ)
              else ((s.hands q : List ℕ) : Multiset ℕ)) p := by
        intro p _
        by_cases hp : p = s.activePlayer
        · subst hp; simp
        · simp [hp]
      rw [Finset.sum_congr rfl hcongr]
      have hupd := sum_ite_update_multiset count s.activePlayer
        (fun p => ((s.hands p : List ℕ) : Multiset ℕ))
        ((addCardToHand (s.hands s.activePlayer) card : List ℕ) : Multiset ℕ)
        hactive
      simp only [multiset_addCardToHand] at hupd ⊢
      have hrearr : (Finset.range count).sum
            (fun p => ((s.hands p : List ℕ) : Multiset ℕ)) +
          (((s.hands s.activePlayer : List ℕ) : Multiset ℕ) + {card}) =
          ((Finset.range count).sum
            (fun p => ((s.hands p : List ℕ) : Multiset ℕ)) + {card}) +
          ((s.hands s.activePlayer : List ℕ) : Multiset ℕ) := by abel
      rw [hrearr] at hupd
      have hsum := add_right_cancel hupd
      rw [hsum]
      rw [← hboard]
      simp only [optCardM]
      abel

/-- A failed or successful decline preserves the card invariant. -/
theorem cardInv_noThanks (count : ℕ) (dm : Multiset ℕ) (s : GameState)
    (h : CardInv count dm s) : CardInv count dm (noThanks s).1 := by
  obtain ⟨hcount, hactive, hboard⟩ := h
  unfold noThanks
  cases hc : s.currentCard with
  | none => exact ⟨hcount, hactive, hboard⟩
  | some card =>
    unfold addTokensToPlayer advanceActivePlayer
    dsimp only
    by_cases hneg : s.playerTokens s.activePlayer + (-1) < 0
    · rw [if_pos hneg]
      exact ⟨hcount, hactive, hboard⟩
    · rw [if_neg hneg]
      refine ⟨hcount, ?_, ?_⟩
      · show (s.activePlayer + 1) % s.playerCount < count
        rw [hcount]
        exact Nat.mod_lt _ (by omega)
      · unfold boardMultiset at hboard ⊢
        dsimp only
        exact hboard

/-- The freshly dealt game satisfies the card invariant for its own deck. -/
theorem cardInv_freshGame (count start : ℕ) (tok : ℤ) (deck : List ℕ)
    (hstart : start < count) :
    CardInv count (deck : Multiset ℕ) (freshGame count start tok deck) := by
  refine ⟨rfl, hstart, ?_⟩
  unfold boardMultiset freshGame
  dsimp only
  simp [optCardM]

/-- The card invariant holds in every state reachable from one satisfying
it. -/
theorem cardInv_reachable (count : ℕ) (dm : Multiset ℕ) (s0 s : GameState)
    (h0 : CardInv count dm s0) (hr : Reachable s0 s) :
    CardInv count dm s := by
  unfold Reachable at hr
  induction hr with
  | refl => exact h0
  | tail _ hstep ih =>
    cases hstep with
    | reveal r => exact cardInv_reveal count dm _ r ih
    | take => exact cardInv_take count dm _ ih
    | decline => exact cardInv_noThanks count dm _ ih

end Lemmas

section Claims

/-- Claim C3, counterexample: `dealTokens(2)` does not fail.  The lookup
chain of src/code.gs.js lines 186-197 treats any player count up to 5 as 11
tokens per player, so a 2-player deal succeeds and hands both players 11
tokens, contradicting the claim that every player count outside `[3, 7]`
fails with an unsupported-player-count error. -/
theorem dealTokens_two_players_no_failure :
    (dealTokens 2).isSome = true ∧
    ((dealTokens 2).getD (fun _ => 0)) 0 = 11 ∧
    ((dealTokens 2).getD (fun _ => 0)) 1 = 11 :=
  ⟨rfl, rfl, rfl⟩

/-- Claim C3, amended: the deal amounts are 11 tokens per player for 3, 4 or
5 players, 9 for 6 and 7 for 7, and the final revision's `tokensPerPlayer`
fails with an unsupported-player-count error for every count outside
`[3, 7]`; the earlier `dealTokens` performs no such validation and in
particular succeeds on 2 players, giving each 11 tokens. -/
theorem dealTokens_lookup_table :
    (∀ playerCount : ℕ, 3 ≤ playerCount → playerCount ≤ 5 →
      dealTokensAmount playerCount = some 11 ∧
        tokensPerPlayer playerCount = .ok 11) ∧
    (dealTokensAmount 6 = some 9 ∧ tokensPerPlayer 6 = .ok 9) ∧
    (dealTokensAmount 7 = some 7 ∧ tokensPerPlayer 7 = .ok 7) ∧
    (∀ playerCount : ℕ, playerCount < 3 ∨ 7 < playerCount →
      tokensPerPlayer playerCount =
        .error (.unsupportedPlayerCount playerCount)) ∧
    (∀ p : ℕ, p < 2 → ((dealTokens 2).getD (fun _ => 0)) p = 11) := by
  refine ⟨?_, ⟨rfl, rfl⟩, ⟨rfl, rfl⟩, ?_, ?_⟩
  · intro playerCount h3 h5
    interval_cases playerCount <;> exact ⟨rfl, rfl⟩
  · intro playerCount h
    unfold tokensPerPlayer
    rw [if_neg (by omega), if_neg (by omega), if_neg (by omega)]
  · intro p hp
    interval_cases p <;> rfl

/-- Witness for the amended claim C3 at concrete player counts. -/
theorem dealTokens_lookup_table_witness :
    ((3 : ℕ) ≤ 4 ∧ (4 : ℕ) ≤ 5 ∧ dealTokensAmount 4 = some 11) ∧
    ((7 : ℕ) < 8 ∧ tokensPerPlayer 8 = .error (.unsupportedPlayerCount 8)) :=
  ⟨⟨by decide, by decide,
      (dealTokens_lookup_table.1 4 (by decide) (by decide)).1⟩,
    ⟨by decide, dealTokens_lookup_table.2.2.2.1 8 (Or.inr (by decide))⟩⟩

/-- Claim C4: the second revision's `drawCard` (src/code.gs.js lines
614-625) calls `randInt(deck.length)` instead of `randInt(deck.length - 1)`,
so with the legitimate `Math.random()` value `3/4` on the one-card deck
`[3]` it picks index 1, reads `undefined` (`none`) instead of an element of
the deck, and removes nothing; the first revision's `drawCard` at the same
random value returns card 3 and the empty remaining deck as the claim
describes. -/
theorem drawCard2_undefined_draw :
    (0 : ℚ) ≤ 3/4 ∧ (3 : ℚ)/4 < 1 ∧
    drawCard2 [3] (3/4) = (none, [3]) ∧
    drawCard [3] (3/4) = (some 3, []) := by
  have h1 : randInt (3/4) 1 = 1 := by unfold randInt; norm_num
  have h0 : randInt (3/4) 0 = 0 := by unfold randInt; norm_num
  refine ⟨by norm_num, by norm_num, ?_, ?_⟩
  · show ((_ : List ℕ)[randInt (3/4) [3].length]?, [3].eraseIdx (randInt (3/4) [3].length)) = _
    simp only [List.length_cons, List.length_nil, h1]
    rfl
  · show ((_ : List ℕ)[randInt (3/4) ([3].length - 1)]?, [3].eraseIdx (randInt (3/4) ([3].length - 1))) = _
    simp only [List.length_cons, List.length_nil, h0]
    rfl

/-- Claim C9: because the second revision's `newDeck` draws with that
revision's out-of-range `drawCard`, a run whose nine `Math.random()` values
are all `99/100` (each a legitimate value in `[0, 1)`) removes nothing and
yields a 33-card deck instead of the claimed 24; the first revision's
`newDeck` on the same random values does yield 24 cards. -/
theorem newDeck2_size_bug :
    (0 : ℚ) ≤ 99/100 ∧ (99 : ℚ)/100 < 1 ∧
    (newDeck2 (List.replicate 9 ((99 : ℚ)/100))).length = 33 ∧
    (newDeck (List.replicate 9 ((99 : ℚ)/100))).length = 24 := by
  refine ⟨by norm_num, by norm_num, ?_, ?_⟩
  · unfold newDeck2
    rw [newDeck2_stuck 9 (range MAX_CARD MIN_CARD) (by decide)]
    decide
  · exact (newDeck_spec _
      (by intro r hrr; rw [List.eq_of_mem_replicate hrr]; norm_num)
      (by rfl)).1

/-- Claim C7: on a sorted sequence of unique integers (strictly ascending
list), `groupConsecutiveRuns` yields non-empty runs in which each element is
the previous plus one, adjacent runs cannot be merged (the head of the next
run is never the last element of the previous run plus one), and flattening
the runs in order reproduces the input exactly. -/
theorem groupConsecutiveRuns_spec (l : List ℤ) (hl : l.Sorted (· < ·)) :
    (groupConsecutiveRuns l).flatten = l ∧
    (∀ r ∈ groupConsecutiveRuns l,
      r ≠ [] ∧ r.Chain' (fun a b => b = a + 1)) ∧
    (groupConsecutiveRuns l).Chain'
      (fun r₁ r₂ => ∀ a ∈ r₁.getLast?, ∀ b ∈ r₂.head?, b ≠ a + 1) := by
  have hsort : l.insertionSort (· ≤ ·) = l :=
    List.Sorted.insertionSort_eq (hl.imp le_of_lt)
  unfold groupConsecutiveRuns
  rw [hsort]
  exact ⟨by simpa using runsAux_join l [],
    fun r hr => runsAux_runs l [] List.chain'_nil r hr,
    runsAux_chain l []⟩

/-- Witness for claim C7 on the concrete sorted hand `[5, 6, 7, 10]`. -/
theorem groupConsecutiveRuns_spec_witness :
    ([5, 6, 7, 10] : List ℤ).Sorted (· < ·) ∧
    (groupConsecutiveRuns [5, 6, 7, 10]).flatten = [5, 6, 7, 10] :=
  ⟨by decide, (groupConsecutiveRuns_spec [5, 6, 7, 10] (by decide)).1⟩

/-- Claim C10: both shuffle implementations return a permutation of their
input — same length and same multiset of elements — for every input array
and every sequence of genuine `Math.random()` values in `[0, 1)`. -/
theorem shuffle_perm (array : List ℕ) (rand : ℕ → ℚ)
    (hr : ∀ i, 0 ≤ rand i ∧ rand i < 1) :
    (shuffleA array rand).Perm array ∧
    (shuffleA array rand).length = array.length ∧
    (shuffleB array rand).Perm array ∧
    (shuffleB array rand).length = array.length := by
  have hA : ((shuffleA array rand : List ℕ) : Multiset ℕ) =
      (array : Multiset ℕ) :=
    shuffleAuxA_multiset rand hr array.length array le_rfl
  have hB : ((shuffleB array rand : List ℕ) : Multiset ℕ) =
      (array : Multiset ℕ) :=
    shuffleAuxB_multiset rand hr (array.length - 1) array le_rfl
  have hpA : (shuffleA array rand).Perm array := Multiset.coe_eq_coe.mp hA
  have hpB : (shuffleB array rand).Perm array := Multiset.coe_eq_coe.mp hB
  exact ⟨hpA, hpA.length_eq, hpB, hpB.length_eq⟩

/-- Witness for claim C10 on a concrete array and the constant random
stream `1/2`. -/
theorem shuffle_perm_witness :
    (shuffleA [4, 8, 15] halfRand).Perm [4, 8, 15] ∧
    (shuffleB [4, 8, 15] halfRand).Perm [4, 8, 15] := by
  have h := shuffle_perm [4, 8, 15] halfRand
    (fun i => ⟨by norm_num [halfRand], by norm_num [halfRand]⟩)
  exact ⟨h.1, h.2.2.1⟩

/-- Claim C8: invoking `revealTopCard` while a card is still out is rejected
with the card-still-out error before any write, so the full state — deck,
current card, table pool, hands, token counts and active player pointer — is
returned exactly as it was. -/
theorem revealTopCard_card_still_out (s : GameState) (c : ℕ) (r : ℚ)
    (hc : s.currentCard = some c) :
    revealTopCard s r = (s, some (.cardStillOut c)) := by
  unfold revealTopCard
  rw [hc]

/-- Witness for claim C8 on a concrete state with card 5 out. -/
theorem revealTopCard_card_still_out_witness :
    stuckState.currentCard = some 5 ∧
    revealTopCard stuckState 0 = (stuckState, some (.cardStillOut 5)) :=
  ⟨rfl, revealTopCard_card_still_out stuckState 5 0 rfl⟩

/-- Claim C5: `noThanks` by a player holding 0 tokens fails with the
insufficient-tokens error thrown inside `addTokensToPlayer` before any
write, so the full state — the declining player's tokens, every other
player's tokens, the table pool, the current card, the deck and the active
player pointer — is returned exactly as it was. -/
theorem noThanks_zero_tokens_rejected (s : GameState) (c : ℕ)
    (hc : s.currentCard = some c)
    (h0 : s.playerTokens s.activePlayer = 0) :
    noThanks s = (s, some GameError.insufficientTokens) := by
  have h : addTokensToPlayer s s.activePlayer (-1) =
      (s, some GameError.insufficientTokens) := by
    unfold addTokensToPlayer
    rw [h0]
    norm_num
  unfold noThanks
  rw [hc]
  simp only [h]

/-- Witness for claim C5 on a concrete state whose active player holds no
tokens. -/
theorem noThanks_zero_tokens_rejected_witness :
    brokeState.currentCard = some 5 ∧
    brokeState.playerTokens brokeState.activePlayer = 0 ∧
    noThanks brokeState = (brokeState, some GameError.insufficientTokens) :=
  ⟨rfl, rfl, noThanks_zero_tokens_rejected brokeState 5 rfl rfl⟩

/-- Claim C6: `takeCard` never moves the active player pointer (on success
or failure), while a successful `noThanks` — card out and at least one token
held — always succeeds and moves it to `(activePlayer + 1) % playerCount`. -/
theorem takeCard_keeps_turn_noThanks_advances :
    (∀ s : GameState, ((takeCard s).1).activePlayer = s.activePlayer) ∧
    (∀ (s : GameState) (c : ℕ), s.currentCard = some c →
      1 ≤ s.playerTokens s.activePlayer →
      (noThanks s).2 = none ∧
      ((noThanks s).1).activePlayer =
        (s.activePlayer + 1) % s.playerCount) := by
  constructor
  · intro s
    unfold takeCard
    cases hc : s.currentCard with
    | none => rfl
    | some card =>
      unfold addTokensToPlayer
      dsimp only
      split <;> rfl
  · intro s c hc htok
    have h : addTokensToPlayer s s.activePlayer (-1) =
        ({ s with playerTokens := fun p =>
            if p = s.activePlayer then s.playerTokens s.activePlayer + (-1)
            else s.playerTokens p }, none) := by
      unfold addTokensToPlayer
      rw [if_neg (by omega)]
    unfold noThanks
    rw [hc]
    simp only [h]
    exact ⟨trivial, rfl⟩

/-- Witness for claim C6 with 4 players: taking leaves player 2 active,
declining moves 2 to 3, and declining as player 3 wraps to 0. -/
theorem takeCard_keeps_turn_noThanks_advances_witness :
    ((takeCard (turnState 2)).1).activePlayer = 2 ∧
    (turnState 2).currentCard = some 5 ∧
    1 ≤ (turnState 2).playerTokens 2 ∧
    ((noThanks (turnState 2)).1).activePlayer = 3 ∧
    ((noThanks (turnState 3)).1).activePlayer = 0 := by
  have h2 := takeCard_keeps_turn_noThanks_advances
  refine ⟨h2.1 (turnState 2), rfl, by norm_num [turnState], ?_, ?_⟩
  · exact (h2.2 (turnState 2) 5 rfl (by norm_num [turnState])).2
  · exact (h2.2 (turnState 3) 5 rfl (by norm_num [turnState])).2

/-- Claim C1: in every state reachable from a fresh game (dealt by the
`dealTokens` lookup, starting player in range) by any sequence of reveal,
take and decline actions, the sum of all players' token counts plus the
table pool equals the total number of tokens dealt at game start — tokens
are only transferred, never created or destroyed. -/
theorem token_conservation (count start : ℕ) (tok : ℤ) (deck : List ℕ)
    (s : GameState) (hstart : start < count)
    (htok : dealTokensAmount count = some tok)
    (hreach : Reachable (freshGame count start tok deck) s) :
    tokenTotal s = count * tok := by
  have htok0 : 0 ≤ tok := by
    unfold dealTokensAmount at htok
    split_ifs at htok <;> simp only [Option.some.injEq] at htok <;> omega
  exact (tokenInv_reachable count tok _ s
    (tokenInv_freshGame count start tok deck hstart htok0) hreach).2.2.2.2

/-- Witness for claim C1: a fresh 3-player game after one reveal still
carries 33 tokens in total. -/
theorem token_conservation_witness :
    (0 : ℕ) < 3 ∧ dealTokensAmount 3 = some 11 ∧
    tokenTotal ((revealTopCard (freshGame 3 0 11 [5, 9]) 0).1) = 3 * 11 :=
  ⟨by decide, by decide,
    token_conservation 3 0 11 [5, 9] _ (by decide) (by decide)
      (Relation.ReflTransGen.single (Step.reveal _ 0))⟩

/-- Claim C2: in every state reachable from a fresh game whose deck was
built by `newDeck` (9 blind removals from the 33-value range), the cards in
the deck, the revealed card (if any) and all hands together are exactly the
multiset of the freshly dealt deck — no value duplicated or lost, all
distinct and in `[MIN_CARD, MAX_CARD]` — and their count plus the fixed
setup-removed count equals `MAX_CARD - MIN_CARD + 1`. -/
theorem card_conservation (count start : ℕ) (tok : ℤ) (rs : List ℚ)
    (s : GameState) (hstart : start < count)
    (hr : ∀ r ∈ rs, 0 ≤ r ∧ r < 1)
    (hlen : rs.length = SETUP_CARDS_REMOVED)
    (hreach : Reachable (freshGame count start tok (newDeck rs)) s) :
    boardMultiset s = ((newDeck rs : List ℕ) : Multiset ℕ) ∧
    (boardMultiset s).Nodup ∧
    (∀ c ∈ boardMultiset s, MIN_CARD ≤ c ∧ c ≤ MAX_CARD) ∧
    s.deck.length + (match s.currentCard with | some _ => 1 | none => 0) +
        (Finset.range s.playerCount).sum (fun p => (s.hands p).length) +
        SETUP_CARDS_REMOVED = MAX_CARD - MIN_CARD + 1 := by
  obtain ⟨hnd_len, hnd_nodup, hnd_range⟩ := newDeck_spec rs hr hlen
  obtain ⟨hcount, hactive, hboard⟩ := cardInv_reachable count _ _ s
    (cardInv_freshGame count start tok (newDeck rs) hstart) hreach
  refine ⟨hboard, ?_, ?_, ?_⟩
  · rw [hboard]
    exact Multiset.coe_nodup.mpr hnd_nodup
  · intro c hcmem
    rw [hboard] at hcmem
    exact hnd_range c (by simpa using hcmem)
  · have hcard := congrArg Multiset.card hboard
    unfold boardMultiset at hcard
    rw [Multiset.coe_card, Multiset.card_add, Multiset.card_add,
      card_finset_sum, Multiset.coe_card] at hcard
    have hopt : Multiset.card (optCardM s.currentCard) =
        (match s.currentCard with | some _ => 1 | none => 0) := by
      cases s.currentCard <;> simp [optCardM]
    rw [hopt] at hcard
    rw [Finset.sum_congr rfl
      (fun p _ => Multiset.coe_card (s.hands p))] at hcard
    rw [hnd_len] at hcard
    simp only [SETUP_CARDS_REMOVED, MAX_CARD, MIN_CARD]
    omega

/-- Witness for claim C2 at a fresh 3-player game over a deck built with
nine zero random draws. -/
theorem card_conservation_witness :
    (0 : ℕ) < 3 ∧ (List.replicate 9 (0 : ℚ)).length = SETUP_CARDS_REMOVED ∧
    boardMultiset (freshGame 3 0 11 (newDeck (List.replicate 9 0))) =
      ((newDeck (List.replicate 9 0) : List ℕ) : Multiset ℕ) :=
  ⟨by decide, by decide,
    (card_conservation 3 0 11 (List.replicate 9 0) _ (by decide)
      (by intro r hrr; rw [List.eq_of_mem_replicate hrr]; norm_num)
      (by decide) Relation.ReflTransGen.refl).1⟩

end Claims

end NoThanks
